import Mathlib

/-!
# Online Corpus Editor — verification of the realtime synchronization engine

Shallow embedding of the client core of the online-corpus-editor repository:
the request correlator (the websocket factory), the hash-based navigation
state machine (`client/js/v0.2.3/app/controller.nav.js`), the data-request
layer (`controller.requests.js`), the WebSocket connection manager
(`websocket.js`), and the inbound message processor
(`content.processor.js`).

JavaScript strings are modelled as `String`/`List Char`; JavaScript objects
appearing as hash query objects or request records are modelled as
association lists with later assignments shadowing earlier ones; `null`,
`NaN`, numbers and strings are the `JSPrim` inductive.  All functions are
translated statement-by-statement from the JavaScript source.
-/

namespace OCE

/-- Primitive JavaScript values as they occur in the navigation and request
modules: `null`, `NaN`, (integer-valued) numbers and strings.  The client
only ever stores these shapes in the hash-derived query object, in the
parsed-request record and in outbound request records. -/
inductive JSPrim where
  | null : JSPrim
  | nan : JSPrim
  | num : Int → JSPrim
  | str : String → JSPrim
deriving Repr, DecidableEq

/-- Decimal digit character for a value below ten (`0`–`9`). -/
def digitChar (d : Nat) : Char := Char.ofNat (48 + d)

/-- Big-endian decimal digit list of a natural number — the output of the
number-to-string conversion JavaScript applies when a number is concatenated
into a string. -/
def natToDec (n : Nat) : List Char :=
  if n < 10 then [digitChar n] else natToDec (n / 10) ++ [digitChar (n % 10)]
termination_by n
decreasing_by exact Nat.div_lt_self (by omega) (by omega)

/-- Decimal character list of an integer, with a leading `-` when negative:
the string JavaScript produces for an integer-valued number. -/
def intToDec (i : Int) : List Char :=
  if i < 0 then '-' :: natToDec i.natAbs else natToDec i.toNat

/-- String form of `intToDec`. -/
def intToDecS (i : Int) : String := ⟨intToDec i⟩

/-- Value of a decimal digit character, if it is one. -/
def digitVal (c : Char) : Option Nat :=
  if 48 ≤ c.toNat ∧ c.toNat ≤ 57 then some (c.toNat - 48) else none

/-- Splits off the maximal leading run of decimal digits, returning their
values and the remainder. -/
def takeDigits : List Char → List Nat × List Char
  | [] => ([], [])
  | c :: rest =>
    match digitVal c with
    | some d => ((d :: (takeDigits rest).1), (takeDigits rest).2)
    | none => ([], c :: rest)

/-- Value of a big-endian list of decimal digit values. -/
def digitsToNat (ds : List Nat) : Nat := ds.foldl (fun a d => a * 10 + d) 0

/-- Characters the JavaScript number-parsing functions skip as whitespace
(space, tab, newline, carriage return, vertical tab, form feed — the ASCII
portion of the WhiteSpace production, which is all the repository can send). -/
def jsSpace (c : Char) : Bool := c.toNat ∈ [32, 9, 10, 13, 11, 12]

/-- Digit-run stage shared by `parseInt` after the sign has been consumed:
the maximal leading run of decimal digits, `NaN` when it is empty, otherwise
the signed value; trailing characters are ignored, as in JavaScript. -/
def jsParseIntSigned (neg : Bool) (cs : List Char) : JSPrim :=
  if (takeDigits cs).1.isEmpty then .nan
  else if neg then .num (-(digitsToNat (takeDigits cs).1 : Int))
  else .num (digitsToNat (takeDigits cs).1)

/-- Model of `parseInt(str)` on a character list, covering the default
radix-10 path exercised by the repository: skip leading whitespace, an
optional sign, then the maximal leading run of decimal digits; `NaN` when no
digit is found. -/
def jsParseIntChars (cs0 : List Char) : JSPrim :=
  match cs0.dropWhile jsSpace with
  | [] => .nan
  | c :: rest =>
    if c = '-' then jsParseIntSigned true rest
    else if c = '+' then jsParseIntSigned false rest
    else jsParseIntSigned false (c :: rest)

/-- Model of `parseInt(v)` on a primitive value: the argument is first
converted to a string (`null` prints as `"null"`, `NaN` as `"NaN"`, a number
as its decimal form), then parsed. -/
def jsParseInt : JSPrim → JSPrim
  | .null => jsParseIntChars "null".data
  | .nan => jsParseIntChars "NaN".data
  | .num n => jsParseIntChars (intToDec n)
  | .str s => jsParseIntChars s.data

/-- Digit-run stage of the ToNumber string coercion after the sign: unlike
`parseInt`, the digit run must span the whole remainder, else `NaN`. -/
def jsToNumberSigned (neg : Bool) (cs : List Char) : Option Int :=
  if (takeDigits cs).1.isEmpty ∨ ¬ (takeDigits cs).2.isEmpty then none
  else if neg then some (-(digitsToNat (takeDigits cs).1 : Int))
  else some (digitsToNat (takeDigits cs).1)

/-- Model of the ToNumber coercion on a string (what JavaScript applies when
`==` compares a string with a number), on the integer fragment the
repository produces: whitespace is trimmed at both ends, an empty remainder
denotes `0`, otherwise an optionally signed run of decimal digits must span
the whole remainder; anything else is `NaN` (`none`). -/
def jsStrToNumber (s : String) : Option Int :=
  match ((s.data.dropWhile jsSpace).reverse.dropWhile jsSpace).reverse with
  | [] => some 0
  | c :: rest =>
    if c = '-' then jsToNumberSigned true rest
    else if c = '+' then jsToNumberSigned false rest
    else jsToNumberSigned false (c :: rest)

/-- JavaScript loose equality (`==`) on the primitive values above: `null`
equals `null`, `NaN` equals nothing, numbers and strings compare by value,
and a string compares with a number via ToNumber on the string. -/
def jsLooseEq : JSPrim → JSPrim → Bool
  | .null, .null => true
  | .num a, .num b => a == b
  | .str a, .str b => a == b
  | .num a, .str b => jsStrToNumber b == some a
  | .str a, .num b => jsStrToNumber a == some b
  | _, _ => false

/-! ## Lemmas about the decimal printer and the parsers -/

theorem digitVal_digitChar : ∀ d : Nat, d < 10 → digitVal (digitChar d) = some d := by
  decide

theorem natToDec_all_digits (n : Nat) :
    ∀ c ∈ natToDec n, (digitVal c).isSome := by
  induction n using Nat.strong_induction_on with
  | _ n ih =>
    by_cases h : n < 10
    · rw [natToDec, if_pos h]
      intro c hc
      simp only [List.mem_singleton] at hc
      subst hc
      rw [digitVal_digitChar n h]
      rfl
    · rw [natToDec, if_neg h]
      intro c hc
      rcases List.mem_append.mp hc with hl | hr
      · exact ih (n / 10) (Nat.div_lt_self (by omega) (by omega)) c hl
      · simp only [List.mem_singleton] at hr
        subst hr
        rw [digitVal_digitChar (n % 10) (Nat.mod_lt n (by omega))]
        rfl

theorem natToDec_ne_nil (n : Nat) : natToDec n ≠ [] := by
  rw [natToDec]
  by_cases h : n < 10
  · rw [if_pos h]; simp
  · rw [if_neg h]; simp

theorem digit_isSome_props {c : Char} (h : (digitVal c).isSome) :
    jsSpace c = false ∧ c ≠ '-' ∧ c ≠ '+' := by
  have hv : 48 ≤ c.toNat ∧ c.toNat ≤ 57 := by
    by_contra hcon
    rw [digitVal, if_neg hcon] at h
    simp at h
  refine ⟨?_, ?_, ?_⟩
  · simp only [jsSpace, List.mem_cons, List.not_mem_nil, or_false,
      decide_eq_false_iff_not]
    omega
  · intro hc; subst hc; simp at hv
  · intro hc; subst hc; simp at hv

theorem takeDigits_of_digits (cs : List Char) (h : ∀ c ∈ cs, (digitVal c).isSome) :
    takeDigits cs = (cs.map (fun c => c.toNat - 48), []) := by
  induction cs with
  | nil => rfl
  | cons c rest ih =>
    have hc : (digitVal c).isSome := h c (List.mem_cons_self c rest)
    have hval : digitVal c = some (c.toNat - 48) := by
      rcases Option.isSome_iff_exists.mp hc with ⟨d, hd⟩
      have hb : 48 ≤ c.toNat ∧ c.toNat ≤ 57 := by
        by_contra hcon
        rw [digitVal, if_neg hcon] at hd
        exact Option.noConfusion hd
      rw [digitVal, if_pos hb]
    rw [takeDigits, hval]
    rw [ih (fun x hx => h x (List.mem_cons_of_mem c hx))]
    simp

theorem digitsToNat_append (xs : List Nat) (d : Nat) :
    digitsToNat (xs ++ [d]) = digitsToNat xs * 10 + d := by
  rw [digitsToNat, digitsToNat, List.foldl_append]
  rfl

theorem digitsToNat_natToDec (n : Nat) :
    digitsToNat ((natToDec n).map (fun c => c.toNat - 48)) = n := by
  induction n using Nat.strong_induction_on with
  | _ n ih =>
    have hval : ∀ d : Nat, d < 10 → (digitChar d).toNat - 48 = d := by decide
    by_cases h : n < 10
    · rw [natToDec, if_pos h]
      simp [digitsToNat, hval n h]
    · rw [natToDec, if_neg h]
      rw [List.map_append, List.map_singleton, digitsToNat_append]
      rw [ih (n / 10) (Nat.div_lt_self (by omega) (by omega))]
      rw [hval (n % 10) (Nat.mod_lt n (by omega))]
      omega

theorem jsParseIntSigned_of_digits (neg : Bool) (cs : List Char) (hne : cs ≠ [])
    (h : ∀ c ∈ cs, (digitVal c).isSome) :
    jsParseIntSigned neg cs =
      if neg then JSPrim.num (-(digitsToNat (cs.map (fun c => c.toNat - 48)) : Int))
      else JSPrim.num (digitsToNat (cs.map (fun c => c.toNat - 48))) := by
  rw [jsParseIntSigned, takeDigits_of_digits cs h]
  have hie : (cs.map (fun c => c.toNat - 48)).isEmpty = false := by
    cases cs with
    | nil => exact absurd rfl hne
    | cons a l => rfl
  simp [hie]

theorem jsToNumberSigned_of_digits (neg : Bool) (cs : List Char) (hne : cs ≠ [])
    (h : ∀ c ∈ cs, (digitVal c).isSome) :
    jsToNumberSigned neg cs =
      if neg then some (-(digitsToNat (cs.map (fun c => c.toNat - 48)) : Int))
      else some ((digitsToNat (cs.map (fun c => c.toNat - 48)) : Int)) := by
  rw [jsToNumberSigned, takeDigits_of_digits cs h]
  have hie : (cs.map (fun c => c.toNat - 48)).isEmpty = false := by
    cases cs with
    | nil => exact absurd rfl hne
    | cons a l => rfl
  simp [hie]

theorem jsParseIntChars_natToDec (n : Nat) : jsParseIntChars (natToDec n) = .num n := by
  rcases hd : natToDec n with _ | ⟨c, rest⟩
  · exact absurd hd (natToDec_ne_nil n)
  · have hall := natToDec_all_digits n
    rw [hd] at hall
    have hprops := digit_isSome_props (hall c (List.mem_cons_self c rest))
    have hdrop : (c :: rest).dropWhile jsSpace = c :: rest := by
      rw [List.dropWhile_cons, hprops.1]
      simp
    rw [jsParseIntChars, hdrop]
    simp only
    rw [if_neg hprops.2.1, if_neg hprops.2.2]
    rw [jsParseIntSigned_of_digits false (c :: rest) (by simp) hall]
    rw [if_neg (by simp)]
    rw [← hd, digitsToNat_natToDec n]

theorem jsParseIntChars_intToDec (i : Int) : jsParseIntChars (intToDec i) = .num i := by
  rw [intToDec]
  by_cases h : i < 0
  · rw [if_pos h]
    rcases hd : natToDec i.natAbs with _ | ⟨c, rest⟩
    · exact absurd hd (natToDec_ne_nil _)
    · have hall := natToDec_all_digits i.natAbs
      rw [hd] at hall
      have hsp : jsSpace '-' = false := by decide
      have hdrop : ('-' :: c :: rest).dropWhile jsSpace = '-' :: c :: rest := by
        rw [List.dropWhile_cons, hsp]
        simp
      rw [jsParseIntChars, hdrop]
      simp only
      rw [if_pos trivial]
      rw [jsParseIntSigned_of_digits true (c :: rest) (by simp) hall]
      rw [if_pos rfl]
      rw [← hd, digitsToNat_natToDec]
      congr 1
      omega
  · rw [if_neg h, jsParseIntChars_natToDec]
    congr 1
    omega

theorem dropWhile_of_all_false {p : Char → Bool} :
    ∀ l : List Char, (∀ c ∈ l, p c = false) → l.dropWhile p = l := by
  intro l h
  cases l with
  | nil => rfl
  | cons c rest =>
    rw [List.dropWhile_cons, h c (List.mem_cons_self c rest)]
    simp

theorem jsStrToNumber_intToDec (i : Int) : jsStrToNumber ⟨intToDec i⟩ = some i := by
  have hnosp : ∀ c ∈ intToDec i, jsSpace c = false := by
    intro c hc
    rw [intToDec] at hc
    by_cases h : i < 0
    · rw [if_pos h] at hc
      rcases List.mem_cons.mp hc with h1 | h2
      · subst h1; decide
      · exact (digit_isSome_props (natToDec_all_digits _ c h2)).1
    · rw [if_neg h] at hc
      exact (digit_isSome_props (natToDec_all_digits _ c hc)).1
  have hstr : (⟨intToDec i⟩ : String).data = intToDec i := rfl
  rw [jsStrToNumber, hstr]
  rw [dropWhile_of_all_false (intToDec i) hnosp]
  rw [dropWhile_of_all_false (intToDec i).reverse
    (fun c hc => hnosp c (List.mem_reverse.mp hc))]
  rw [List.reverse_reverse]
  rw [intToDec]
  by_cases h : i < 0
  · rw [if_pos h]
    rcases hd : natToDec i.natAbs with _ | ⟨c, rest⟩
    · exact absurd hd (natToDec_ne_nil _)
    · have hall := natToDec_all_digits i.natAbs
      rw [hd] at hall
      simp only
      rw [if_pos trivial]
      rw [jsToNumberSigned_of_digits true (c :: rest) (by simp) hall]
      rw [if_pos rfl]
      rw [← hd, digitsToNat_natToDec]
      congr 1
      omega
  · rw [if_neg h]
    rcases hd : natToDec i.toNat with _ | ⟨c, rest⟩
    · exact absurd hd (natToDec_ne_nil _)
    · have hall := natToDec_all_digits i.toNat
      rw [hd] at hall
      have hprops := digit_isSome_props (hall c (List.mem_cons_self c rest))
      simp only
      rw [if_neg hprops.2.1, if_neg hprops.2.2]
      rw [jsToNumberSigned_of_digits false (c :: rest) (by simp) hall]
      rw [if_neg (by simp)]
      rw [← hd, digitsToNat_natToDec]
      congr 1
      omega

theorem jsParseInt_num (i : Int) : jsParseInt (.num i) = .num i :=
  jsParseIntChars_intToDec i

theorem jsParseInt_decStr (i : Int) : jsParseInt (.str ⟨intToDec i⟩) = .num i := by
  have hstr : (⟨intToDec i⟩ : String).data = intToDec i := rfl
  rw [jsParseInt, hstr]
  exact jsParseIntChars_intToDec i


/-! ## Percent-encoding: `encodeURIComponent` and `decodeURIComponent` -/

/-- UTF-8 byte sequence of a character (the standard one- to four-byte
encoding of its scalar value). -/
def utf8Bytes (c : Char) : List Nat :=
  if c.toNat < 0x80 then [c.toNat]
  else if c.toNat < 0x800 then
    [0xC0 + c.toNat / 64, 0x80 + c.toNat % 64]
  else if c.toNat < 0x10000 then
    [0xE0 + c.toNat / 4096, 0x80 + c.toNat / 64 % 64, 0x80 + c.toNat % 64]
  else
    [0xF0 + c.toNat / 262144, 0x80 + c.toNat / 4096 % 64,
      0x80 + c.toNat / 64 % 64, 0x80 + c.toNat % 64]

/-- Uppercase hexadecimal digit character, as `encodeURIComponent` emits. -/
def hexDigit (n : Nat) : Char :=
  if n < 10 then Char.ofNat (48 + n) else Char.ofNat (55 + n)

/-- Characters `encodeURIComponent` leaves unescaped: ASCII letters and
digits plus `-`, `_`, `.`, `!`, `~`, `*`, the apostrophe, `(` and `)`. -/
def uriUnreserved (c : Char) : Bool :=
  c.isAlpha || c.isDigit || c.toNat ∈ [45, 95, 46, 33, 126, 42, 39, 40, 41]

/-- Percent-escape triple for one byte. -/
def pctTriple (b : Nat) : List Char := ['%', hexDigit (b / 16), hexDigit (b % 16)]

/-- Encoding of a single character by `encodeURIComponent`: unreserved
characters pass through, everything else becomes the percent-escaped form of
its UTF-8 bytes. -/
def pctEncodeChar (c : Char) : List Char :=
  if uriUnreserved c then [c] else ((utf8Bytes c).map pctTriple).flatten

/-- Model of `encodeURIComponent` on a character list. -/
def encodeURIComponentL (l : List Char) : List Char := (l.map pctEncodeChar).flatten

/-- Model of `encodeURIComponent`. -/
def encodeURIComponent (s : String) : String := ⟨encodeURIComponentL s.data⟩

/-- Value of a hexadecimal digit character (either case), if it is one. -/
def hexVal (c : Char) : Option Nat :=
  if 48 ≤ c.toNat ∧ c.toNat ≤ 57 then some (c.toNat - 48)
  else if 65 ≤ c.toNat ∧ c.toNat ≤ 70 then some (c.toNat - 55)
  else if 97 ≤ c.toNat ∧ c.toNat ≤ 102 then some (c.toNat - 87)
  else none

/-- Token stream of a percent-encoded string: literal characters and the
bytes denoted by `%XX` escapes. -/
inductive PctTok where
  | ch : Char → PctTok
  | byte : Nat → PctTok
deriving Repr, DecidableEq

mutual

/-- First stage of `decodeURIComponent`: lex `%XX` escapes into bytes;
`none` models the `URIError` thrown on a malformed escape. -/
def lexPct : List Char → Option (List PctTok)
  | [] => some []
  | c :: rest =>
    if c = '%' then lexPctEsc rest
    else (lexPct rest).map (PctTok.ch c :: .)
termination_by l => l.length

/-- Reads the two hexadecimal digits of a `%XX` escape. -/
def lexPctEsc : List Char → Option (List PctTok)
  | h :: l :: rest2 =>
    (hexVal h).bind fun hv =>
      (hexVal l).bind fun lv =>
        (lexPct rest2).map (PctTok.byte (hv * 16 + lv) :: .)
  | _ => none
termination_by l => l.length

end

mutual

/-- Second stage of `decodeURIComponent`: interpret escape bytes as UTF-8,
rejecting stray continuation bytes, truncated or overlong sequences, and
sequences denoting surrogates or values beyond the Unicode range. -/
def utf8DecodeToks : List PctTok → Option (List Char)
  | [] => some []
  | .ch c :: rest => (utf8DecodeToks rest).map (c :: .)
  | .byte b :: rest =>
    if b < 0x80 then (utf8DecodeToks rest).map (Char.ofNat b :: .)
    else if b < 0xC0 then none
    else if b < 0xE0 then utf8Dec2 b rest
    else if b < 0xF0 then utf8Dec3 b rest
    else if b < 0xF8 then utf8Dec4 b rest
    else none
termination_by ts => ts.length

/-- Continuation of a two-byte UTF-8 sequence whose lead byte was `b`. -/
def utf8Dec2 (b : Nat) : List PctTok → Option (List Char)
  | .byte b2 :: rest2 =>
    if 0x80 ≤ b2 ∧ b2 < 0xC0 ∧ 0x80 ≤ (b - 0xC0) * 64 + (b2 - 0x80) then
      (utf8DecodeToks rest2).map (Char.ofNat ((b - 0xC0) * 64 + (b2 - 0x80)) :: .)
    else none
  | _ => none
termination_by ts => ts.length

/-- Continuation of a three-byte UTF-8 sequence whose lead byte was `b`. -/
def utf8Dec3 (b : Nat) : List PctTok → Option (List Char)
  | .byte b2 :: .byte b3 :: rest2 =>
    if (0x80 ≤ b2 ∧ b2 < 0xC0 ∧ 0x80 ≤ b3 ∧ b3 < 0xC0) ∧
        0x800 ≤ (b - 0xE0) * 4096 + (b2 - 0x80) * 64 + (b3 - 0x80) ∧
        ((b - 0xE0) * 4096 + (b2 - 0x80) * 64 + (b3 - 0x80) < 0xD800 ∨
          0xE000 ≤ (b - 0xE0) * 4096 + (b2 - 0x80) * 64 + (b3 - 0x80)) then
      (utf8DecodeToks rest2).map
        (Char.ofNat ((b - 0xE0) * 4096 + (b2 - 0x80) * 64 + (b3 - 0x80)) :: .)
    else none
  | _ => none
termination_by ts => ts.length

/-- Continuation of a four-byte UTF-8 sequence whose lead byte was `b`. -/
def utf8Dec4 (b : Nat) : List PctTok → Option (List Char)
  | .byte b2 :: .byte b3 :: .byte b4 :: rest2 =>
    if (0x80 ≤ b2 ∧ b2 < 0xC0 ∧ 0x80 ≤ b3 ∧ b3 < 0xC0 ∧ 0x80 ≤ b4 ∧ b4 < 0xC0) ∧
        0x10000 ≤ (b - 0xF0) * 262144 + (b2 - 0x80) * 4096 +
          (b3 - 0x80) * 64 + (b4 - 0x80) ∧
        (b - 0xF0) * 262144 + (b2 - 0x80) * 4096 +
          (b3 - 0x80) * 64 + (b4 - 0x80) < 0x110000 then
      (utf8DecodeToks rest2).map
        (Char.ofNat ((b - 0xF0) * 262144 + (b2 - 0x80) * 4096 +
          (b3 - 0x80) * 64 + (b4 - 0x80)) :: .)
    else none
  | _ => none
termination_by ts => ts.length

end

/-- Model of `decodeURIComponent` on a character list; `none` models the
`URIError` exception. -/
def decodeURIComponentL (l : List Char) : Option (List Char) :=
  (lexPct l).bind utf8DecodeToks

/-- Model of `decodeURIComponent`. -/
def decodeURIComponent (s : String) : Option String :=
  (decodeURIComponentL s.data).map fun l => (⟨l⟩ : String)

/-- Token sequence a single character contributes to the lexed form of its
encoding. -/
def encToks (c : Char) : List PctTok :=
  if uriUnreserved c then [PctTok.ch c] else (utf8Bytes c).map PctTok.byte

/-! ## Round-trip lemmas for the percent codec -/

theorem char_valid_range (c : Char) :
    c.toNat < 0xD800 ∨ (0xDFFF < c.toNat ∧ c.toNat < 0x110000) := by
  have h := c.valid
  simp only [UInt32.isValidChar, Nat.isValidChar] at h
  exact h

theorem hexVal_hexDigit : ∀ n : Nat, n < 16 → hexVal (hexDigit n) = some n := by
  decide

theorem hexDigit_props : ∀ n : Nat, n < 16 →
    hexDigit n ≠ '&' ∧ hexDigit n ≠ '=' ∧ hexDigit n ≠ '#' ∧ hexDigit n ≠ '%' := by
  decide

theorem lexPct_pctTriple (b : Nat) (hb : b < 256) (rest : List Char) :
    lexPct (pctTriple b ++ rest) = (lexPct rest).map (PctTok.byte b :: .) := by
  have h1 : b / 16 < 16 := Nat.div_lt_of_lt_mul (by omega)
  have h2 : b % 16 < 16 := Nat.mod_lt _ (by omega)
  rw [pctTriple]
  simp only [List.cons_append, List.nil_append]
  rw [lexPct, if_pos rfl, lexPctEsc]
  simp only [hexVal_hexDigit _ h1, hexVal_hexDigit _ h2, Option.some_bind]
  have hbb : b / 16 * 16 + b % 16 = b := by
    have := Nat.div_add_mod b 16
    omega
  rw [hbb]

theorem lexPct_cons_ne_pct (c : Char) (rest : List Char) (hc : c ≠ '%') :
    lexPct (c :: rest) = (lexPct rest).map (PctTok.ch c :: .) := by
  rw [lexPct, if_neg hc]

theorem lexPct_triples (bs : List Nat) (h : ∀ b ∈ bs, b < 256) (rest : List Char) :
    lexPct ((bs.map pctTriple).flatten ++ rest) =
      (lexPct rest).map (bs.map PctTok.byte ++ .) := by
  induction bs with
  | nil =>
    simp only [List.map_nil, List.flatten_nil, List.nil_append]
    cases hx : lexPct rest <;> simp [hx]
  | cons b bs ih =>
    simp only [List.map_cons, List.flatten_cons, List.append_assoc]
    rw [lexPct_pctTriple b (h b (List.mem_cons_self b bs)) _]
    rw [ih (fun x hx => h x (List.mem_cons_of_mem b hx))]
    cases hx : lexPct rest <;> simp [hx]

theorem uriUnreserved_ne_pct {c : Char} (h : uriUnreserved c = true) : c ≠ '%' := by
  intro hc
  subst hc
  exact absurd h (by decide)

theorem utf8Bytes_lt_256 (c : Char) : ∀ b ∈ utf8Bytes c, b < 256 := by
  intro b hb
  have hv := char_valid_range c
  rw [utf8Bytes] at hb
  by_cases h1 : c.toNat < 0x80
  · rw [if_pos h1] at hb
    simp only [List.mem_singleton] at hb
    omega
  · rw [if_neg h1] at hb
    by_cases h2 : c.toNat < 0x800
    · rw [if_pos h2] at hb
      have hd : c.toNat / 64 < 32 := Nat.div_lt_of_lt_mul (by omega)
      have hm : c.toNat % 64 < 64 := Nat.mod_lt _ (by omega)
      simp only [List.mem_cons, List.not_mem_nil, or_false] at hb
      rcases hb with hb | hb <;> omega
    · rw [if_neg h2] at hb
      by_cases h3 : c.toNat < 0x10000
      · rw [if_pos h3] at hb
        have hd : c.toNat / 4096 < 16 := Nat.div_lt_of_lt_mul (by omega)
        have hm1 : c.toNat / 64 % 64 < 64 := Nat.mod_lt _ (by omega)
        have hm2 : c.toNat % 64 < 64 := Nat.mod_lt _ (by omega)
        simp only [List.mem_cons, List.not_mem_nil, or_false] at hb
        rcases hb with hb | hb | hb <;> omega
      · rw [if_neg h3] at hb
        have hd : c.toNat / 262144 < 5 := Nat.div_lt_of_lt_mul (by omega)
        have hm1 : c.toNat / 4096 % 64 < 64 := Nat.mod_lt _ (by omega)
        have hm2 : c.toNat / 64 % 64 < 64 := Nat.mod_lt _ (by omega)
        have hm3 : c.toNat % 64 < 64 := Nat.mod_lt _ (by omega)
        simp only [List.mem_cons, List.not_mem_nil, or_false] at hb
        rcases hb with hb | hb | hb | hb <;> omega

theorem lexPct_encChar (c : Char) (rest : List Char) :
    lexPct (pctEncodeChar c ++ rest) = (lexPct rest).map (encToks c ++ .) := by
  rw [pctEncodeChar, encToks]
  by_cases h : uriUnreserved c
  · rw [if_pos h, if_pos h]
    simp only [List.cons_append, List.nil_append]
    rw [lexPct_cons_ne_pct c rest (uriUnreserved_ne_pct h)]
  · rw [if_neg h, if_neg h]
    exact lexPct_triples (utf8Bytes c) (utf8Bytes_lt_256 c) rest

theorem utf8DecodeToks_bytes (c : Char) (ts : List PctTok) :
    utf8DecodeToks ((utf8Bytes c).map PctTok.byte ++ ts) =
      (utf8DecodeToks ts).map (c :: .) := by
  have hv := char_valid_range c
  have hofn := Char.ofNat_toNat c
  rw [utf8Bytes]
  by_cases h1 : c.toNat < 0x80
  · rw [if_pos h1]
    simp only [List.map_cons, List.map_nil, List.cons_append, List.nil_append]
    rw [utf8DecodeToks, if_pos h1, hofn]
  · rw [if_neg h1]
    by_cases h2 : c.toNat < 0x800
    · rw [if_pos h2]
      have hd32 : c.toNat / 64 < 32 := Nat.div_lt_of_lt_mul (by omega)
      have hd2 : 2 ≤ c.toNat / 64 := by
        rw [Nat.le_div_iff_mul_le (by omega)]
        omega
      have hm : c.toNat % 64 < 64 := Nat.mod_lt _ (by omega)
      have hdm := Nat.div_add_mod c.toNat 64
      simp only [List.map_cons, List.map_nil, List.cons_append, List.nil_append]
      rw [utf8DecodeToks, if_neg (by omega), if_neg (by omega), if_pos (by omega)]
      rw [utf8Dec2, if_pos (by omega)]
      have harg : (0xC0 + c.toNat / 64 - 0xC0) * 64 + (0x80 + c.toNat % 64 - 0x80)
          = c.toNat := by omega
      rw [harg, hofn]
    · rw [if_neg h2]
      by_cases h3 : c.toNat < 0x10000
      · rw [if_pos h3]
        have hd16 : c.toNat / 4096 < 16 := Nat.div_lt_of_lt_mul (by omega)
        have hd4 : 0x800 ≤ c.toNat → True := fun _ => trivial
        have hm1 : c.toNat / 64 % 64 < 64 := Nat.mod_lt _ (by omega)
        have hm2 : c.toNat % 64 < 64 := Nat.mod_lt _ (by omega)
        have hdm1 := Nat.div_add_mod c.toNat 64
        have hdm2 := Nat.div_add_mod (c.toNat / 64) 64
        have hdd : c.toNat / 64 / 64 = c.toNat / 4096 := by
          rw [Nat.div_div_eq_div_mul]
        rw [hdd] at hdm2
        simp only [List.map_cons, List.map_nil, List.cons_append, List.nil_append]
        rw [utf8DecodeToks, if_neg (by omega), if_neg (by omega), if_neg (by omega),
          if_pos (by omega)]
        rw [utf8Dec3, if_pos (by refine ⟨by omega, by omega, ?_⟩; omega)]
        have harg : (0xE0 + c.toNat / 4096 - 0xE0) * 4096 +
            (0x80 + c.toNat / 64 % 64 - 0x80) * 64 + (0x80 + c.toNat % 64 - 0x80)
            = c.toNat := by omega
        rw [harg, hofn]
      · rw [if_neg h3]
        have hub : c.toNat < 0x110000 := by omega
        have hd5 : c.toNat / 262144 < 5 := Nat.div_lt_of_lt_mul (by omega)
        have hm1 : c.toNat / 4096 % 64 < 64 := Nat.mod_lt _ (by omega)
        have hm2 : c.toNat / 64 % 64 < 64 := Nat.mod_lt _ (by omega)
        have hm3 : c.toNat % 64 < 64 := Nat.mod_lt _ (by omega)
        have hdm1 := Nat.div_add_mod c.toNat 64
        have hdm2 := Nat.div_add_mod (c.toNat / 64) 64
        have hdm3 := Nat.div_add_mod (c.toNat / 4096) 64
        have hdd1 : c.toNat / 64 / 64 = c.toNat / 4096 := by
          rw [Nat.div_div_eq_div_mul]
        have hdd2 : c.toNat / 4096 / 64 = c.toNat / 262144 := by
          rw [Nat.div_div_eq_div_mul]
        rw [hdd1] at hdm2
        rw [hdd2] at hdm3
        simp only [List.map_cons, List.map_nil, List.cons_append, List.nil_append]
        rw [utf8DecodeToks, if_neg (by omega), if_neg (by omega), if_neg (by omega),
          if_neg (by omega), if_pos (by omega)]
        rw [utf8Dec4, if_pos (by refine ⟨by omega, by omega, by omega⟩)]
        have harg : (0xF0 + c.toNat / 262144 - 0xF0) * 262144 +
            (0x80 + c.toNat / 4096 % 64 - 0x80) * 4096 +
            (0x80 + c.toNat / 64 % 64 - 0x80) * 64 + (0x80 + c.toNat % 64 - 0x80)
            = c.toNat := by omega
        rw [harg, hofn]

theorem utf8DecodeToks_encToks (c : Char) (ts : List PctTok) :
    utf8DecodeToks (encToks c ++ ts) = (utf8DecodeToks ts).map (c :: .) := by
  rw [encToks]
  by_cases h : uriUnreserved c
  · rw [if_pos h]
    simp only [List.cons_append, List.nil_append]
    rw [utf8DecodeToks]
  · rw [if_neg h]
    exact utf8DecodeToks_bytes c ts

theorem lexPct_encodeL (l : List Char) :
    lexPct (encodeURIComponentL l) = some ((l.map encToks).flatten) := by
  induction l with
  | nil => simp [encodeURIComponentL, lexPct]
  | cons c rest ih =>
    rw [encodeURIComponentL, List.map_cons, List.flatten_cons]
    rw [lexPct_encChar c]
    rw [encodeURIComponentL] at ih
    rw [ih]
    rfl

theorem utf8DecodeToks_encToksJoin (l : List Char) :
    utf8DecodeToks ((l.map encToks).flatten) = some l := by
  induction l with
  | nil => simp [utf8DecodeToks]
  | cons c rest ih =>
    rw [List.map_cons, List.flatten_cons, utf8DecodeToks_encToks, ih]
    rfl

theorem decode_encodeL (l : List Char) :
    decodeURIComponentL (encodeURIComponentL l) = some l := by
  rw [decodeURIComponentL, lexPct_encodeL]
  exact utf8DecodeToks_encToksJoin l

theorem decode_encode (s : String) :
    decodeURIComponent (encodeURIComponent s) = some s := by
  rw [decodeURIComponent, encodeURIComponent]
  have hdata : (⟨encodeURIComponentL s.data⟩ : String).data = encodeURIComponentL s.data :=
    rfl
  rw [hdata, decode_encodeL]
  rfl

theorem pctEncodeChar_no_special (c : Char) :
    ∀ x ∈ pctEncodeChar c, x ≠ '&' ∧ x ≠ '=' ∧ x ≠ '#' := by
  intro x hx
  rw [pctEncodeChar] at hx
  by_cases h : uriUnreserved c
  · rw [if_pos h] at hx
    simp only [List.mem_singleton] at hx
    subst hx
    refine ⟨?_, ?_, ?_⟩ <;> intro hc <;> subst hc <;> exact absurd h (by decide)
  · rw [if_neg h] at hx
    simp only [List.mem_flatten, List.mem_map] at hx
    rcases hx with ⟨trip, ⟨b, hb, htrip⟩, hxin⟩
    subst htrip
    have hb256 : b < 256 := utf8Bytes_lt_256 c b hb
    have h1 : b / 16 < 16 := Nat.div_lt_of_lt_mul (by omega)
    have h2 : b % 16 < 16 := Nat.mod_lt _ (by omega)
    rw [pctTriple] at hxin
    simp only [List.mem_cons, List.not_mem_nil, or_false] at hxin
    rcases hxin with hx | hx | hx
    · subst hx; refine ⟨by decide, by decide, by decide⟩
    · subst hx
      have hp := hexDigit_props (b / 16) h1
      exact ⟨hp.1, hp.2.1, hp.2.2.1⟩
    · subst hx
      have hp := hexDigit_props (b % 16) h2
      exact ⟨hp.1, hp.2.1, hp.2.2.1⟩

theorem encodeL_no_special (l : List Char) :
    ∀ x ∈ encodeURIComponentL l, x ≠ '&' ∧ x ≠ '=' ∧ x ≠ '#' := by
  intro x hx
  rw [encodeURIComponentL] at hx
  simp only [List.mem_flatten, List.mem_map] at hx
  rcases hx with ⟨piece, ⟨c, hc, hpiece⟩, hxin⟩
  subst hpiece
  exact pctEncodeChar_no_special c x hxin

theorem lexPct_no_pct (l : List Char) (h : '%' ∉ l) :
    lexPct l = some (l.map PctTok.ch) := by
  induction l with
  | nil => simp [lexPct]
  | cons c rest ih =>
    have hc : c ≠ '%' := by
      intro hc
      subst hc
      exact h (List.mem_cons_self _ _)
    rw [lexPct_cons_ne_pct c rest hc, ih (fun hr => h (List.mem_cons_of_mem _ hr))]
    rfl

theorem utf8DecodeToks_all_ch (l : List Char) :
    utf8DecodeToks (l.map PctTok.ch) = some l := by
  induction l with
  | nil => simp [utf8DecodeToks]
  | cons c rest ih =>
    rw [List.map_cons, utf8DecodeToks, ih]
    rfl

theorem decode_no_pct (l : List Char) (h : '%' ∉ l) :
    decodeURIComponentL l = some l := by
  rw [decodeURIComponentL, lexPct_no_pct l h]
  exact utf8DecodeToks_all_ch l

/-! ## Navigation module (`controller.nav.js`) -/

/-- Splits a character list at every occurrence of `sep` — the behaviour of
the JavaScript `split` method with a one-character separator (an empty input
yields one empty segment). -/
def splitOnChar (sep : Char) : List Char → List (List Char)
  | [] => [[]]
  | c :: rest =>
    if c = sep then [] :: splitOnChar sep rest
    else (c :: (splitOnChar sep rest).headD []) :: (splitOnChar sep rest).tail

theorem splitOnChar_no_sep (sep : Char) :
    ∀ l : List Char, sep ∉ l → splitOnChar sep l = [l] := by
  intro l h
  induction l with
  | nil => rfl
  | cons c rest ih =>
    have hc : c ≠ sep := fun hh => h (hh ▸ List.mem_cons_self c rest)
    rw [splitOnChar, if_neg hc, ih (fun hr => h (List.mem_cons_of_mem c hr))]
    rfl

theorem splitOnChar_append (sep : Char) (ys : List Char) :
    ∀ xs : List Char, sep ∉ xs →
      splitOnChar sep (xs ++ sep :: ys) = xs :: splitOnChar sep ys := by
  intro xs h
  induction xs with
  | nil => rw [List.nil_append, splitOnChar, if_pos rfl]
  | cons c rest ih =>
    have hc : c ≠ sep := fun hh => h (hh ▸ List.mem_cons_self c rest)
    rw [List.cons_append, splitOnChar, if_neg hc,
      ih (fun hr => h (List.mem_cons_of_mem c hr))]
    rfl

/-- A JavaScript object used as a string-keyed map, modelled by the sequence
of assignments performed on it; later assignments shadow earlier ones. -/
abbrev QueryObj := List (String × JSPrim)

/-- Property assignment (`obj[key] = v`). -/
def jsAssign (obj : QueryObj) (key : String) (v : JSPrim) : QueryObj := (key, v) :: obj

/-- Property lookup: the most recent assignment to `key`, if any (`none`
models `undefined`). -/
def jsGet : QueryObj → String → Option JSPrim
  | [], _ => none
  | (k, v) :: rest, key => if key = k then some v else jsGet rest key

/-- One iteration of the `parseQuery` loop for one `&`-separated segment: a
segment with no `=` is stored under its raw text with value `null`;
otherwise the segment is split on `=`, name and value are percent-decoded
(`none` models the `URIError` a malformed escape throws), an empty decoded
name is skipped, and otherwise the decoded value is assigned under the
decoded name. -/
def parseSegment (obj : QueryObj) (param : List Char) : Option QueryObj :=
  if '=' ∉ param then some (jsAssign obj ⟨param⟩ .null)
  else
    match splitOnChar '=' param with
    | p0 :: p1 :: _ =>
      match decodeURIComponentL p0, decodeURIComponentL p1 with
      | some name, some value =>
        if (⟨name⟩ : String) = "" then some obj
        else some (jsAssign obj ⟨name⟩ (.str ⟨value⟩))
      | _, _ => none
    | _ => none

/-- Model of `parseQuery` on a character list: split on `&` and process the
segments in order. -/
def parseQueryL (l : List Char) : Option QueryObj :=
  (splitOnChar '&' l).foldlM parseSegment []

/-- Model of `parseQuery`. -/
def parseQuery (str : String) : Option QueryObj := parseQueryL str.data

/-- The request record `parseHash` builds: an `operation` plus the optional
`id`, `query` and `page` fields (an absent field is `undefined`). -/
structure NavRequest where
  operation : Option String := none
  id : Option JSPrim := none
  query : Option JSPrim := none
  page : Option JSPrim := none
deriving Repr, DecidableEq

/-- Builds the request record from the parsed query object, following the
statement order of `parseHash`: an `id` key implies `view` with
`parseInt`-ed id; a `query` key implies `search` and defaults `page` to 1
when the `page` key is absent; a `page` key is copied; the `langid` flag and
then the `retrain`/`restart`/`shutdown` else-if chain override the
operation. -/
def buildRequest (qo : QueryObj) : NavRequest :=
  let r0 : NavRequest := {}
  let r1 := match jsGet qo "id" with
    | some v => { r0 with operation := some "view", id := some (jsParseInt v) }
    | none => r0
  let r2 := match jsGet qo "query" with
    | some v =>
      { r1 with
        operation := some "search"
        query := some v
        page := if (jsGet qo "page").isNone then some (.num 1) else r1.page }
    | none => r1
  let r3 := match jsGet qo "page" with
    | some v => { r2 with page := some v }
    | none => r2
  let r4 := if (jsGet qo "langid").isSome then { r3 with operation := some "langid" } else r3
  if (jsGet qo "retrain").isSome then { r4 with operation := some "retrain" }
  else if (jsGet qo "restart").isSome then { r4 with operation := some "restart" }
  else if (jsGet qo "shutdown").isSome then { r4 with operation := some "shutdown" }
  else r4

/-- Strips one leading `#` (the `hash.indexOf('#') === 0` check). -/
def stripHash : List Char → List Char
  | '#' :: rest => rest
  | l => l

/-- Model of `parseHash` on the current hash string: an empty hash (or bare
`#`) is the `init` operation; otherwise the hash is stripped of its leading
`#`, parsed as a query string, and the request record is built from it. -/
def parseHash (hash : String) : Option NavRequest :=
  if hash = "" ∨ hash = "#" then some { operation := some "init" }
  else (parseQueryL (stripHash hash.data)).map buildRequest

/-- Parameters accepted by `createHash`. -/
structure HashParams where
  record : Option Int := none
  query : Option String := none
  page : Option Int := none

/-- Appends one `key=value` part to the hash being assembled, inserting the
`&` separator when the hash already holds more than the leading `#`. -/
def addPart (hash : List Char) (part : List Char) : List Char :=
  if hash.length > 1 then hash ++ '&' :: part else hash ++ part

/-- Model of `createHash`: starts from `#`, then appends the `query=` (URI
encoded), `page=` and `id=` parts, in that order, for the parameters that
are defined. -/
def createHashL (p : HashParams) : List Char :=
  let h0 : List Char := ['#']
  let h1 := match p.query with
    | some q => addPart h0 ("query=".data ++ encodeURIComponentL q.data)
    | none => h0
  let h2 := match p.page with
    | some pg => addPart h1 ("page=".data ++ intToDec pg)
    | none => h1
  match p.record with
  | some r => addPart h2 ("id=".data ++ intToDec r)
  | none => h2

/-- Model of `createHash`. -/
def createHash (p : HashParams) : String := ⟨createHashL p⟩

/-- The URL-representable navigation states of the data model: viewing a
record, or running a search query at a page. -/
inductive NavState where
  | view : Int → NavState
  | search : String → Int → NavState
deriving Repr, DecidableEq

/-- Renders a navigation state to its location fragment through
`createHash`, exactly as the client does (`jumpRecord` passes `record`,
`search` passes `query` and `page`). -/
def renderState : NavState → String
  | .view rid => createHash { record := some rid }
  | .search q p => createHash { query := some q, page := some p }

/-- The request record whose fields carry the given state's components. -/
def reqOfState : NavState → NavRequest
  | .view rid => { operation := some "view", id := some (.num rid) }
  | .search q p =>
    { operation := some "search", query := some (.str q), page := some (.num p) }

/-- Componentwise JavaScript `==` on optional fields (`undefined` only
equals `undefined` here, matching `undefined == undefined`). -/
def optLooseEq : Option JSPrim → Option JSPrim → Bool
  | none, none => true
  | some a, some b => jsLooseEq a b
  | _, _ => false

/-- Componentwise JavaScript `==` on request records. -/
def reqLooseEq (r s : NavRequest) : Bool :=
  r.operation == s.operation && optLooseEq r.id s.id &&
    optLooseEq r.query s.query && optLooseEq r.page s.page

/-! ## Computation lemmas for the navigation round trip -/

theorem digitVal_isSome_bounds {c : Char} (h : (digitVal c).isSome) :
    48 ≤ c.toNat ∧ c.toNat ≤ 57 := by
  by_contra hcon
  rw [digitVal, if_neg hcon] at h
  simp at h

theorem digit_ne_special {c : Char} (h : (digitVal c).isSome) :
    c ≠ '&' ∧ c ≠ '=' ∧ c ≠ '%' ∧ c ≠ '#' := by
  have hv := digitVal_isSome_bounds h
  refine ⟨?_, ?_, ?_, ?_⟩ <;> intro hc <;> subst hc <;> simp at hv

theorem intToDec_no_special (i : Int) :
    ∀ c ∈ intToDec i, c ≠ '&' ∧ c ≠ '=' ∧ c ≠ '%' ∧ c ≠ '#' := by
  intro c hc
  rw [intToDec] at hc
  by_cases h : i < 0
  · rw [if_pos h] at hc
    rcases List.mem_cons.mp hc with h1 | h2
    · subst h1
      refine ⟨by decide, by decide, by decide, by decide⟩
    · exact digit_ne_special (natToDec_all_digits _ c h2)
  · rw [if_neg h] at hc
    exact digit_ne_special (natToDec_all_digits _ c hc)

theorem decode_intToDec (i : Int) : decodeURIComponentL (intToDec i) = some (intToDec i) :=
  decode_no_pct _ (fun hmem => ((intToDec_no_special i _ hmem).2.2.1 rfl))

theorem parseSegment_pair (obj : QueryObj) (nm val dval : List Char)
    (hnm_ne : nm ≠ []) (hnm_eq : '=' ∉ nm) (hval_eq : '=' ∉ val)
    (hnm_dec : decodeURIComponentL nm = some nm)
    (hval_dec : decodeURIComponentL val = some dval) :
    parseSegment obj (nm ++ '=' :: val) = some (jsAssign obj ⟨nm⟩ (.str ⟨dval⟩)) := by
  have hmem : '=' ∈ nm ++ '=' :: val := List.mem_append_right _ (List.mem_cons_self _ _)
  rw [parseSegment, if_neg (fun hn => hn hmem)]
  rw [splitOnChar_append '=' val nm hnm_eq, splitOnChar_no_sep '=' val hval_eq]
  simp only [hnm_dec, hval_dec]
  rw [if_neg (by
    intro hs
    apply hnm_ne
    have hd : (⟨nm⟩ : String).data = ("" : String).data := by rw [hs]
    exact hd)]

theorem parseSegment_decoded (obj : QueryObj) (nm dnm val dval : List Char)
    (hdnm_ne : dnm ≠ []) (hnm_eq : '=' ∉ nm) (hval_eq : '=' ∉ val)
    (hnm_dec : decodeURIComponentL nm = some dnm)
    (hval_dec : decodeURIComponentL val = some dval) :
    parseSegment obj (nm ++ '=' :: val) = some (jsAssign obj ⟨dnm⟩ (.str ⟨dval⟩)) := by
  have hmem : '=' ∈ nm ++ '=' :: val := List.mem_append_right _ (List.mem_cons_self _ _)
  rw [parseSegment, if_neg (fun hn => hn hmem)]
  rw [splitOnChar_append '=' val nm hnm_eq, splitOnChar_no_sep '=' val hval_eq]
  simp only [hnm_dec, hval_dec]
  rw [if_neg (by
    intro hs
    apply hdnm_ne
    have hd : (⟨dnm⟩ : String).data = ("" : String).data := by rw [hs]
    exact hd)]

theorem parseSegment_skip (obj : QueryObj) (nm val dval : List Char)
    (hnm_eq : '=' ∉ nm) (hval_eq : '=' ∉ val)
    (hnm_dec : decodeURIComponentL nm = some [])
    (hval_dec : decodeURIComponentL val = some dval) :
    parseSegment obj (nm ++ '=' :: val) = some obj := by
  have hmem : '=' ∈ nm ++ '=' :: val := List.mem_append_right _ (List.mem_cons_self _ _)
  rw [parseSegment, if_neg (fun hn => hn hmem)]
  rw [splitOnChar_append '=' val nm hnm_eq, splitOnChar_no_sep '=' val hval_eq]
  simp only [hnm_dec, hval_dec]
  rw [if_pos trivial]

theorem foldlM_pair (a b : List Char) (f : QueryObj → List Char → Option QueryObj)
    (o1 o2 : QueryObj) (init : QueryObj) (h1 : f init a = some o1) (h2 : f o1 b = some o2) :
    List.foldlM f init [a, b] = some o2 := by
  simp [List.foldlM, h1, h2]

theorem foldlM_single (a : List Char) (f : QueryObj → List Char → Option QueryObj)
    (o1 : QueryObj) (init : QueryObj) (h1 : f init a = some o1) :
    List.foldlM f init [a] = some o1 := by
  simp [List.foldlM, h1]

theorem createHashL_view (rid : Int) :
    createHashL { record := some rid } = '#' :: ('i' :: 'd' :: '=' :: intToDec rid) := by
  show addPart ['#'] ("id=".data ++ intToDec rid) = _
  rw [addPart, if_neg (by decide)]
  rfl

theorem createHashL_search (q : String) (p : Int) :
    createHashL { query := some q, page := some p } =
      '#' :: ("query=".data ++ encodeURIComponentL q.data ++
        '&' :: ("page=".data ++ intToDec p)) := by
  show addPart (addPart ['#'] ("query=".data ++ encodeURIComponentL q.data))
      ("page=".data ++ intToDec p) = _
  have h1 : addPart ['#'] ("query=".data ++ encodeURIComponentL q.data) =
      ['#'] ++ ("query=".data ++ encodeURIComponentL q.data) := by
    rw [addPart, if_neg (by decide)]
  rw [h1]
  have hlen : (['#'] ++ ("query=".data ++ encodeURIComponentL q.data)).length > 1 := by
    have hq : "query=".data = ['q', 'u', 'e', 'r', 'y', '='] := rfl
    rw [hq]
    simp
  rw [addPart, if_pos hlen]
  simp

theorem jsGet_nil (key : String) : jsGet [] key = none := rfl

theorem jsGet_cons_eq (k : String) (v : JSPrim) (rest : QueryObj) :
    jsGet ((k, v) :: rest) k = some v := by
  rw [jsGet, if_pos rfl]

theorem jsGet_cons_ne (k : String) (v : JSPrim) (rest : QueryObj) (key : String)
    (h : key ≠ k) : jsGet ((k, v) :: rest) key = jsGet rest key := by
  rw [jsGet, if_neg h]

theorem buildRequest_id_only (qo : QueryObj) (v : JSPrim)
    (hid : jsGet qo "id" = some v) (hq : jsGet qo "query" = none)
    (hp : jsGet qo "page" = none) (hl : jsGet qo "langid" = none)
    (hr1 : jsGet qo "retrain" = none) (hr2 : jsGet qo "restart" = none)
    (hr3 : jsGet qo "shutdown" = none) :
    buildRequest qo = { operation := some "view", id := some (jsParseInt v) } := by
  rw [buildRequest, hid, hq, hp, hl, hr1, hr2, hr3]
  rfl

theorem buildRequest_query_page (qo : QueryObj) (v w : JSPrim)
    (hid : jsGet qo "id" = none) (hq : jsGet qo "query" = some v)
    (hp : jsGet qo "page" = some w) (hl : jsGet qo "langid" = none)
    (hr1 : jsGet qo "retrain" = none) (hr2 : jsGet qo "restart" = none)
    (hr3 : jsGet qo "shutdown" = none) :
    buildRequest qo =
      { operation := some "search", query := some v, page := some w } := by
  rw [buildRequest, hid, hq, hp, hl, hr1, hr2, hr3]
  rfl

theorem parseHash_view (rid : Int) :
    parseHash (createHash { record := some rid }) = some (reqOfState (.view rid)) := by
  have hdata : (createHash { record := some rid }).data =
      createHashL { record := some rid } := rfl
  have hne : (createHash { record := some rid }) ≠ "" := by
    intro hs
    have hd : (createHash { record := some rid }).data = ("" : String).data := by rw [hs]
    rw [hdata, createHashL_view] at hd
    exact List.noConfusion hd
  have hne2 : (createHash { record := some rid }) ≠ "#" := by
    intro hs
    have hd : (createHash { record := some rid }).data = ("#" : String).data := by rw [hs]
    rw [hdata, createHashL_view] at hd
    have hd2 := List.tail_eq_of_cons_eq hd
    exact List.noConfusion hd2
  rw [parseHash, if_neg (by push_neg; exact ⟨hne, hne2⟩)]
  rw [hdata, createHashL_view, stripHash]
  have hsplit : splitOnChar '&' ('i' :: 'd' :: '=' :: intToDec rid) =
      [('i' :: 'd' :: '=' :: intToDec rid)] := by
    apply splitOnChar_no_sep
    intro hmem
    rcases List.mem_cons.mp hmem with h1 | hmem
    · exact absurd h1.symm (by decide)
    rcases List.mem_cons.mp hmem with h1 | hmem
    · exact absurd h1.symm (by decide)
    rcases List.mem_cons.mp hmem with h1 | hmem
    · exact absurd h1.symm (by decide)
    · exact (intToDec_no_special rid _ hmem).1 rfl
  rw [parseQueryL, hsplit]
  have hseg : parseSegment [] ('i' :: 'd' :: '=' :: intToDec rid) =
      some (jsAssign [] "id" (.str ⟨intToDec rid⟩)) := by
    have hp := parseSegment_pair [] ['i', 'd'] (intToDec rid) (intToDec rid)
      (by decide) (by decide)
      (fun hmem => (intToDec_no_special rid _ hmem).2.1 rfl)
      (decode_no_pct _ (by decide)) (decode_intToDec rid)
    exact hp
  rw [foldlM_single _ _ _ _ hseg]
  show some (buildRequest [("id", JSPrim.str ⟨intToDec rid⟩)]) =
    some (reqOfState (NavState.view rid))
  rw [buildRequest_id_only _ (JSPrim.str ⟨intToDec rid⟩)
    (jsGet_cons_eq _ _ _)
    ((jsGet_cons_ne _ _ _ _ (by decide)).trans (jsGet_nil _))
    ((jsGet_cons_ne _ _ _ _ (by decide)).trans (jsGet_nil _))
    ((jsGet_cons_ne _ _ _ _ (by decide)).trans (jsGet_nil _))
    ((jsGet_cons_ne _ _ _ _ (by decide)).trans (jsGet_nil _))
    ((jsGet_cons_ne _ _ _ _ (by decide)).trans (jsGet_nil _))
    ((jsGet_cons_ne _ _ _ _ (by decide)).trans (jsGet_nil _))]
  rw [jsParseInt_decStr rid, reqOfState]

theorem parseHash_search (q : String) (p : Int) :
    parseHash (createHash { query := some q, page := some p }) =
      some ⟨some "search", none, some (.str q), some (.str ⟨intToDec p⟩)⟩ := by
  have hdata : (createHash { query := some q, page := some p }).data =
      createHashL { query := some q, page := some p } := rfl
  have hne : (createHash { query := some q, page := some p }) ≠ "" := by
    intro hs
    have hd : (createHash { query := some q, page := some p }).data =
      ("" : String).data := by rw [hs]
    rw [hdata, createHashL_search] at hd
    exact List.noConfusion hd
  have hne2 : (createHash { query := some q, page := some p }) ≠ "#" := by
    intro hs
    have hd : (createHash { query := some q, page := some p }).data =
      ("#" : String).data := by rw [hs]
    rw [hdata, createHashL_search] at hd
    have hd2 := List.tail_eq_of_cons_eq hd
    exact List.noConfusion hd2
  rw [parseHash, if_neg (by push_neg; exact ⟨hne, hne2⟩)]
  rw [hdata, createHashL_search, stripHash]
  have hq_noamp : '&' ∉ "query=".data ++ encodeURIComponentL q.data := by
    intro hmem
    rcases List.mem_append.mp hmem with h1 | h2
    · exact absurd h1 (by decide)
    · exact (encodeL_no_special _ _ h2).1 rfl
  have hsplit : splitOnChar '&' ("query=".data ++ encodeURIComponentL q.data ++
      '&' :: ("page=".data ++ intToDec p)) =
      [("query=".data ++ encodeURIComponentL q.data), ("page=".data ++ intToDec p)] := by
    rw [splitOnChar_append '&' _ _ hq_noamp]
    rw [splitOnChar_no_sep]
    intro hmem
    rcases List.mem_append.mp hmem with h1 | h2
    · exact absurd h1 (by decide)
    · exact (intToDec_no_special p _ h2).1 rfl
  rw [parseQueryL, hsplit]
  have hseg1 : parseSegment [] ("query=".data ++ encodeURIComponentL q.data) =
      some (jsAssign [] "query" (.str q)) := by
    have hp := parseSegment_pair [] "query".data (encodeURIComponentL q.data) q.data
      (by decide) (by decide)
      (fun hmem => (encodeL_no_special _ _ hmem).2.1 rfl)
      (decode_no_pct _ (by decide)) (decode_encodeL q.data)
    exact hp
  have hseg2 : parseSegment (jsAssign [] "query" (.str q))
      ("page=".data ++ intToDec p) =
      some (jsAssign (jsAssign [] "query" (.str q)) "page" (.str ⟨intToDec p⟩)) := by
    have hp := parseSegment_pair (jsAssign [] "query" (.str q)) "page".data
      (intToDec p) (intToDec p)
      (by decide) (by decide)
      (fun hmem => (intToDec_no_special p _ hmem).2.1 rfl)
      (decode_no_pct _ (by decide)) (decode_intToDec p)
    exact hp
  rw [foldlM_pair _ _ _ _ _ _ hseg1 hseg2]
  show some (buildRequest [("page", JSPrim.str ⟨intToDec p⟩), ("query", JSPrim.str q)]) =
    some ⟨some "search", none, some (.str q), some (.str ⟨intToDec p⟩)⟩
  rw [buildRequest_query_page _ (JSPrim.str q) (JSPrim.str ⟨intToDec p⟩)
    ((jsGet_cons_ne _ _ _ _ (by decide)).trans
      ((jsGet_cons_ne _ _ _ _ (by decide)).trans (jsGet_nil _)))
    ((jsGet_cons_ne _ _ _ _ (by decide)).trans (jsGet_cons_eq _ _ _))
    (jsGet_cons_eq _ _ _)
    ((jsGet_cons_ne _ _ _ _ (by decide)).trans
      ((jsGet_cons_ne _ _ _ _ (by decide)).trans (jsGet_nil _)))
    ((jsGet_cons_ne _ _ _ _ (by decide)).trans
      ((jsGet_cons_ne _ _ _ _ (by decide)).trans (jsGet_nil _)))
    ((jsGet_cons_ne _ _ _ _ (by decide)).trans
      ((jsGet_cons_ne _ _ _ _ (by decide)).trans (jsGet_nil _)))
    ((jsGet_cons_ne _ _ _ _ (by decide)).trans
      ((jsGet_cons_ne _ _ _ _ (by decide)).trans (jsGet_nil _)))]

/-! ## Message data values and the application message -/

/-- JavaScript values carried in the `data` field of a decoded application
message: `undefined`, `null`, booleans, (integer-valued) numbers, strings,
arrays and objects. -/
inductive JData where
  | undefined : JData
  | null : JData
  | bool : Bool → JData
  | num : Int → JData
  | str : String → JData
  | arr : List JData → JData
  | obj : List (String × JData) → JData

/-- Property access `d.key`: a field of an object, `undefined` otherwise. -/
def JData.field : JData → String → JData
  | .obj fs, key => (fs.lookup key).getD .undefined
  | _, _ => .undefined

/-- The decoded application message `\x7b command, data \x7d` handed to the
correlator and the processor by the inbound pipeline. -/
structure AppMessage where
  command : String
  data : JData

/-- The `msg.data.error === true` test of the processor. -/
def dataError (d : JData) : Bool :=
  match d.field "error" with
  | .bool true => true
  | _ => false

/-! ## Outbound request records and their serialization -/

/-- An outbound request record (`\x7b command: ..., ...parameters \x7d`),
modelled as the ordered field list of the JavaScript object literal. -/
abbrev ReqObj := List (String × JSPrim)

/-- Escapes the characters JSON.stringify escapes in the strings this
application sends (quote and backslash; the repository sends no control
characters in commands). -/
def jsonEscape (s : String) : String :=
  ⟨s.data.foldr
    (fun c acc =>
      if c = '"' then '\\' :: '"' :: acc
      else if c = '\\' then '\\' :: '\\' :: acc
      else c :: acc) []⟩

/-- JSON form of one primitive value (`JSON.stringify` prints `NaN` as
`null`). -/
def jsonVal : JSPrim → String
  | .str s => "\"" ++ jsonEscape s ++ "\""
  | .num n => intToDecS n
  | .null => "null"
  | .nan => "null"

/-- Model of `JSON.stringify` on the flat request objects the client sends. -/
def jsonStringify (r : ReqObj) : String :=
  "\x7b" ++
    String.intercalate ","
      (r.map (fun kv => "\"" ++ jsonEscape kv.1 ++ "\":" ++ jsonVal kv.2)) ++
    "\x7d"

/-! ## Request correlator (the websocket factory promise queue) -/

/-- One pending request: the stored command tag (`promiseQueue[i][0]`) and
an identifier standing for the deferred
(`promiseQueue[i][1]`). -/
structure Pending where
  tag : String
  pid : Nat
deriving Repr, DecidableEq

/-- The scan-and-splice loop of the `onMessage` handler: find the first
entry whose stored tag equals the inbound command, remove it, and return it
together with the remaining queue. -/
def findResolve : List Pending → String → Option (Pending × List Pending)
  | [], _ => none
  | p :: rest, cmd =>
    if cmd = p.tag then some (p, rest)
    else (findResolve rest cmd).map (fun pr => (pr.1, p :: pr.2))

/-- The `socket.onMessage` handler: resolve the first matching pending entry
with the decoded message itself, or drop the message when no entry matches
(the unsolicited case — the source only leaves a TODO comment there). -/
def onMessage (queue : List Pending) (msg : AppMessage) :
    List Pending × Option (Nat × AppMessage) :=
  match findResolve queue msg.command with
  | some (p, rest) => (rest, some (p.pid, msg))
  | none => (queue, none)

/-- The loop of `rejectPromises`: rejects every queued deferred, in order,
with the given reason. -/
def rejectLoop : List Pending → String → List (Nat × String)
  | [], _ => []
  | p :: rest, reason => (p.pid, reason) :: rejectLoop rest reason

/-- Model of `rejectPromises`: every pending entry is rejected with the
reason and the queue is reset to the empty array. -/
def rejectPromises (queue : List Pending) (reason : String) :
    List Pending × List (Nat × String) :=
  ([], rejectLoop queue reason)

/-- The `socket.onError` handler. -/
def onErrorHandler (queue : List Pending) : List Pending × List (Nat × String) :=
  rejectPromises queue "WebSocket error."

/-- The `socket.onClose` handler. -/
def onCloseHandler (queue : List Pending) : List Pending × List (Nat × String) :=
  rejectPromises queue "WebSocket closed."

/-- The `request` function: push `[command, deferred]` onto the queue and
send the serialized request object; returns the new queue and the frame
written to the wire. -/
def request (queue : List Pending) (req : ReqObj) (command : String) (pid : Nat) :
    List Pending × String :=
  (queue ++ [⟨command, pid⟩], jsonStringify req)

/-! ## Connection manager (`websocket.js`) -/

/-- The module state of the v0.2.3 WebSocket interface that `sendRequest`
consults: the `_up` flag maintained by the `onopen`/`onerror`/`onclose`
handlers. -/
structure WSState where
  up : Bool
deriving Repr, DecidableEq

/-- Model of `isUp`. -/
def isUp (s : WSState) : Bool := s.up

/-- What `sendRequest` does to the outside world: either one frame is
written to the socket, or the socket is re-initialised (which carries no
request payload). -/
inductive SendEffect where
  | sent : String → SendEffect
  | reconnect : SendEffect
deriving Repr, DecidableEq

/-- Model of `sendRequest`: if the socket is not up, only ask for a re-init
and return — the request is dropped, not queued for retransmission;
otherwise write the JSON-serialized request to the socket. -/
def sendRequest (s : WSState) (req : ReqObj) : SendEffect :=
  if isUp s = false then .reconnect else .sent (jsonStringify req)

/-- The `socket.onopen` handler sets `_up`. -/
def onOpenWS (s : WSState) : WSState := { s with up := true }

/-- The `socket.onclose` handler clears `_up`. -/
def onCloseWS (s : WSState) : WSState := { s with up := false }

/-- The `socket.onerror` handler clears `_up`. -/
def onErrorWS (s : WSState) : WSState := { s with up := false }

/-! ## Data-request layer (`controller.requests.js`) -/

/-- `Config.recordsPerPage` (config.js). -/
def recordsPerPage : Int := 100

/-- JavaScript `%` on integer-valued numbers: the remainder of truncating
division. -/
def jsRem (a b : Int) : Int := Int.tmod a b

/-- The request built by `_fetchRecords`. -/
def fetchRecords (start fin recordID : Int) : ReqObj :=
  [("command", .str "view"), ("start", .num start), ("end", .num fin),
    ("record", .num recordID)]

/-- Model of `fetchRecord` with the page size read from the configuration
passed explicitly: computes the aligned window containing the record and
delegates to `_fetchRecords`. -/
def fetchRecordWith (pageSize recordID : Int) : ReqObj :=
  let start := recordID - jsRem (recordID - 1) pageSize
  fetchRecords start (start + pageSize - 1) recordID

/-- Model of `fetchRecord` at the configured page size. -/
def fetchRecord (recordID : Int) : ReqObj := fetchRecordWith recordsPerPage recordID

/-- The request built by `fetchMeta`. -/
def fetchMeta : ReqObj := [("command", .str "meta")]

/-! ## Inbound message processor (`content.processor.js`) and meta store -/

/-- The shared metadata store (`meta.js`): total record count, total
search-hit count, and the known tag vocabulary. -/
structure MetaStore where
  totalRecords : JData
  totalSearch : JData
  tagsAvailable : JData

/-- Initial contents of the meta store. -/
def initialMeta : MetaStore := ⟨.num 0, .num 0, .arr []⟩

/-- Model of `commandMeta`: overwrites the cached totals and tag vocabulary
with the fields of the response, regardless of the previous contents. -/
def commandMeta (st : MetaStore) (msg : AppMessage) : MetaStore :=
  { st with totalRecords := msg.data.field "total", tagsAvailable := msg.data.field "tags" }

/-- The `msg.data === "success"` strict-equality test of `commandUpdate`. -/
def isSuccess : JData → Bool
  | .str s => s == "success"
  | _ => false

/-- What `commandUpdate` does: the save notification's polarity and the
follow-up requests it issues. -/
structure UpdateEffect where
  saveOk : Bool
  requests : List ReqObj
deriving Repr

/-- Model of `commandUpdate`: a `"success"` acknowledgement notifies success
and issues exactly one `fetchMeta` request; anything else notifies failure
and issues nothing. -/
def commandUpdate (msg : AppMessage) : UpdateEffect :=
  if isSuccess msg.data then ⟨true, [fetchMeta]⟩ else ⟨false, []⟩

/-- The `'command' + cmd[0].toUpperCase() + cmd.slice(1).toLowerCase()`
handler-name construction of `processMessage`. -/
def handlerName (cmd : String) : String :=
  "command" ++
    (match cmd.data with
    | [] => ""
    | c :: rest => ⟨c.toUpper :: rest.map Char.toLower⟩)

/-- The handler functions defined on the processor object. -/
def knownHandlers : List String :=
  ["commandMeta", "commandView", "commandSearch", "commandUpdate", "commandLangid",
    "commandRetrain"]

/-- Outcome of `processMessage`: an application error surfaced to the user
(before any dispatch), a dispatched handler, or the console message for an
unknown command. -/
inductive ProcOutcome where
  | errorShown : JData → ProcOutcome
  | handled : String → ProcOutcome
  | missingHandler : String → ProcOutcome

/-- Model of `processMessage`: a message with `data.error === true` only
shows the error text (`data.message`, formatted by the presentation layer)
and returns; otherwise the handler named after the command is dispatched
when it exists. -/
def processMessage (msg : AppMessage) : ProcOutcome :=
  if dataError msg.data then .errorShown (msg.data.field "message")
  else if handlerName msg.command ∈ knownHandlers then .handled (handlerName msg.command)
  else .missingHandler (handlerName msg.command)


/-! ## Helper lemmas for the correlator -/

theorem findResolve_spec (cmd : String) :
    ∀ (q : List Pending) (p : Pending) (rest : List Pending),
      findResolve q cmd = some (p, rest) →
      ∃ l r, q = l ++ p :: r ∧ rest = l ++ r ∧ p.tag = cmd ∧ ∀ x ∈ l, x.tag ≠ cmd := by
  intro q
  induction q with
  | nil =>
    intro p rest h
    rw [findResolve] at h
    exact Option.noConfusion h
  | cons a as ih =>
    intro p rest h
    rw [findResolve] at h
    by_cases hc : cmd = a.tag
    · rw [if_pos hc] at h
      have hpair := Option.some.inj h
      have hp : a = p := congrArg Prod.fst hpair
      have hr : as = rest := congrArg Prod.snd hpair
      subst hp
      subst hr
      exact ⟨[], as, rfl, rfl, hc.symm, by simp⟩
    · rw [if_neg hc] at h
      cases hf : findResolve as cmd with
      | none =>
        rw [hf] at h
        exact Option.noConfusion h
      | some pr =>
        rw [hf] at h
        have hpair := Option.some.inj h
        have hp : pr.1 = p := congrArg Prod.fst hpair
        have hr : a :: pr.2 = rest := congrArg Prod.snd hpair
        rcases ih pr.1 pr.2 (by rw [hf]) with ⟨l, r, hq, hrest, htag, hl⟩
        refine ⟨a :: l, r, ?_, ?_, ?_, ?_⟩
        · rw [List.cons_append, ← hp, ← hq]
        · rw [← hr, List.cons_append, hrest]
        · rw [← hp]; exact htag
        · intro x hx
          rcases List.mem_cons.mp hx with hxa | hxl
          · subst hxa; exact fun ht => hc ht.symm
          · exact hl x hxl

theorem findResolve_none (cmd : String) :
    ∀ q : List Pending, (∀ x ∈ q, x.tag ≠ cmd) → findResolve q cmd = none := by
  intro q h
  induction q with
  | nil => rfl
  | cons a as ih =>
    rw [findResolve, if_neg (fun hc => h a (List.mem_cons_self a as) hc.symm),
      ih (fun x hx => h x (List.mem_cons_of_mem a hx))]
    rfl

theorem rejectLoop_map (reason : String) :
    ∀ q : List Pending, rejectLoop q reason = q.map (fun p => (p.pid, reason)) := by
  intro q
  induction q with
  | nil => rfl
  | cons a as ih => rw [rejectLoop, ih, List.map_cons]

/-! ## The claims -/

/-- C1: on every inbound decoded message the correlator resolves exactly the
first (oldest) pending entry whose stored command tag equals the message's
command, removing it from the queue before resolving it with the message;
consequently, for two requests with the same command tag queued A then B and
two matching responses arriving in order, A's future resolves on the first
response and B's on the second, each settled exactly once (the resolved
entry is removed, so no later message can settle it again). -/
theorem C1_correlator_fifo :
    (∀ (q : List Pending) (m : AppMessage) (p : Pending) (rest : List Pending),
        findResolve q m.command = some (p, rest) →
        onMessage q m = (rest, some (p.pid, m)) ∧
        ∃ l r, q = l ++ p :: r ∧ rest = l ++ r ∧ p.tag = m.command ∧
          ∀ x ∈ l, x.tag ≠ m.command) ∧
    (∀ (t : String) (pa pb : Nat) (m₁ m₂ : AppMessage),
        m₁.command = t → m₂.command = t →
        onMessage [⟨t, pa⟩, ⟨t, pb⟩] m₁ = ([⟨t, pb⟩], some (pa, m₁)) ∧
        onMessage [⟨t, pb⟩] m₂ = ([], some (pb, m₂))) := by
  constructor
  · intro q m p rest h
    refine ⟨?_, findResolve_spec m.command q p rest h⟩
    rw [onMessage, h]
  · intro t pa pb m₁ m₂ h₁ h₂
    constructor
    · rw [onMessage, findResolve, if_pos h₁]
    · rw [onMessage, findResolve, if_pos h₂]

theorem C1_correlator_fifo_witness :
    onMessage [⟨"view", 0⟩, ⟨"view", 1⟩] ⟨"view", .null⟩ =
      ([⟨"view", 1⟩], some (0, (⟨"view", .null⟩ : AppMessage))) ∧
    onMessage [⟨"view", 1⟩] ⟨"view", .str "r2"⟩ =
      ([], some (1, (⟨"view", .str "r2"⟩ : AppMessage))) :=
  C1_correlator_fifo.2 "view" 0 1 ⟨"view", .null⟩ ⟨"view", .str "r2"⟩ rfl rfl

/-- C2: when the connection errors or closes, every entry of the pending
queue is rejected, in order, with the corresponding transport-failure
reason, and the queue is left empty: with N pending requests, all N are
rejected and zero remain pending. -/
theorem C2_bulk_rejection :
    ∀ q : List Pending,
      (onCloseHandler q).1 = [] ∧
      (onCloseHandler q).2 = q.map (fun p => (p.pid, "WebSocket closed.")) ∧
      (onCloseHandler q).2.length = q.length ∧
      (onErrorHandler q).1 = [] ∧
      (onErrorHandler q).2 = q.map (fun p => (p.pid, "WebSocket error.")) ∧
      (onErrorHandler q).2.length = q.length := by
  intro q
  refine ⟨rfl, ?_, ?_, rfl, ?_, ?_⟩
  · exact rejectLoop_map _ q
  · rw [show (onCloseHandler q).2 = rejectLoop q "WebSocket closed." from rfl,
      rejectLoop_map, List.length_map]
  · exact rejectLoop_map _ q
  · rw [show (onErrorHandler q).2 = rejectLoop q "WebSocket error." from rfl,
      rejectLoop_map, List.length_map]

/-- C3: the navigation round trip.  Rendering a `view` state and parsing the
fragment back recovers the state exactly.  Rendering a `search` state and
parsing back recovers the request whose `page` field holds the decimal
string of the page number (the source stores the parsed hash value without
converting it to a number), and the parsed request equals the original state
componentwise under JavaScript loose equality `==` — the equality the spec's
`parse(render(s)) == s` denotes — because `"1" == 1` holds by the ToNumber
coercion. -/
theorem C3_nav_roundtrip :
    (∀ rid : Int,
        parseHash (renderState (.view rid)) = some (reqOfState (.view rid))) ∧
    (∀ (q : String) (p : Int),
        parseHash (renderState (.search q p)) =
          some ⟨some "search", none, some (.str q), some (.str ⟨intToDec p⟩)⟩ ∧
        (parseHash (renderState (.search q p))).map
          (fun r => reqLooseEq r (reqOfState (.search q p))) = some true) := by
  constructor
  · intro rid
    rw [renderState]
    exact parseHash_view rid
  · intro q p
    have hps := parseHash_search q p
    constructor
    · rw [renderState]
      exact hps
    · rw [renderState, hps]
      simp only [Option.map]
      rw [reqOfState]
      rw [show reqLooseEq ⟨some "search", none, some (.str q), some (.str ⟨intToDec p⟩)⟩
          ⟨some "search", none, some (.str q), some (.num p)⟩ =
          ((some "search" == some "search") && optLooseEq none none &&
            jsLooseEq (.str q) (.str q) &&
            jsLooseEq (.str ⟨intToDec p⟩) (.num p)) from rfl]
      rw [show jsLooseEq (.str ⟨intToDec p⟩) (.num p) =
          (jsStrToNumber ⟨intToDec p⟩ == some p) from rfl]
      rw [jsStrToNumber_intToDec p]
      simp [optLooseEq, jsLooseEq]

/-- C4: `fetchRecord` computes the aligned page window
`start = recordId - ((recordId - 1) mod pageSize)`,
`end = start + pageSize - 1` and issues a `view` command with those bounds
and the echoed record id, for every positive record id and page size (the
JavaScript `%` is the truncating remainder, which agrees with the
mathematical `mod` on these nonnegative operands); at the configured page
size 100, record 251 yields the window 201–300 and record 100 yields
1–100. -/
theorem C4_page_window :
    (∀ pageSize recordID : Int, 0 < pageSize → 0 < recordID →
        fetchRecordWith pageSize recordID =
          [("command", .str "view"),
            ("start", .num (recordID - (recordID - 1) % pageSize)),
            ("end", .num (recordID - (recordID - 1) % pageSize + pageSize - 1)),
            ("record", .num recordID)]) ∧
    fetchRecord 251 =
      [("command", .str "view"), ("start", .num 201), ("end", .num 300),
        ("record", .num 251)] ∧
    fetchRecord 100 =
      [("command", .str "view"), ("start", .num 1), ("end", .num 100),
        ("record", .num 100)] := by
  refine ⟨?_, by decide, by decide⟩
  intro pageSize recordID hps hrid
  rw [fetchRecordWith, fetchRecords]
  have hmod : jsRem (recordID - 1) pageSize = (recordID - 1) % pageSize := by
    rw [jsRem, Int.tmod_eq_emod (by omega) (by omega)]
  rw [hmod]

theorem C4_page_window_witness :
    fetchRecordWith 100 251 =
      [("command", .str "view"), ("start", .num (251 - (251 - 1) % 100)),
        ("end", .num (251 - (251 - 1) % 100 + 100 - 1)), ("record", .num 251)] :=
  C4_page_window.1 100 251 (by decide) (by decide)


/-- C5: `parseHash` precedence.  An empty fragment (or bare `#`) yields the
`init` operation.  Otherwise, over the parsed query object: an `id` key with
no `query` key and no flags yields operation `view` with the
`parseInt`-parsed id; a `query` key (no flags) yields operation `search`
carrying the decoded query, with `page` defaulting to 1 when the `page` key
is absent; and the valueless flags override the operation to their
respective commands — `retrain` unconditionally, `restart` and `shutdown`
subject to the earlier members of their else-if chain, and `langid` unless a
server-command flag follows it. -/
theorem C5_parse_precedence :
    (parseHash "" = some ⟨some "init", none, none, none⟩ ∧
      parseHash "#" = some ⟨some "init", none, none, none⟩) ∧
    (∀ (frag : String) (qo : QueryObj) (r : NavRequest),
        frag ≠ "" → frag ≠ "#" →
        parseQueryL (stripHash frag.data) = some qo →
        parseHash frag = some r →
        ((∀ v, jsGet qo "id" = some v → jsGet qo "query" = none →
            jsGet qo "langid" = none → jsGet qo "retrain" = none →
            jsGet qo "restart" = none → jsGet qo "shutdown" = none →
            r.operation = some "view" ∧ r.id = some (jsParseInt v)) ∧
          (∀ v, jsGet qo "query" = some v →
            jsGet qo "langid" = none → jsGet qo "retrain" = none →
            jsGet qo "restart" = none → jsGet qo "shutdown" = none →
            r.operation = some "search" ∧ r.query = some v ∧
            (jsGet qo "page" = none → r.page = some (.num 1))) ∧
          (jsGet qo "langid" ≠ none → jsGet qo "retrain" = none →
            jsGet qo "restart" = none → jsGet qo "shutdown" = none →
            r.operation = some "langid") ∧
          (jsGet qo "retrain" ≠ none → r.operation = some "retrain") ∧
          (jsGet qo "restart" ≠ none → jsGet qo "retrain" = none →
            r.operation = some "restart") ∧
          (jsGet qo "shutdown" ≠ none → jsGet qo "retrain" = none →
            jsGet qo "restart" = none → r.operation = some "shutdown"))) := by
  constructor
  · constructor
    · rw [parseHash, if_pos (Or.inl rfl)]
    · rw [parseHash, if_pos (Or.inr rfl)]
  · intro frag qo r hne hne2 hq hparse
    rw [parseHash, if_neg (by push_neg; exact ⟨hne, hne2⟩), hq] at hparse
    have hr : r = buildRequest qo := (Option.some.inj hparse).symm
    subst hr
    refine ⟨?_, ?_, ?_, ?_, ?_, ?_⟩
    · intro v hid hqy hl h1 h2 h3
      rcases hp : jsGet qo "page" with _ | w <;>
        simp [buildRequest, hid, hqy, hl, h1, h2, h3, hp]
    · intro v hqy hl h1 h2 h3
      rcases hid : jsGet qo "id" with _ | v0 <;>
        rcases hp : jsGet qo "page" with _ | w <;>
          simp [buildRequest, hid, hqy, hl, h1, h2, h3, hp]
    · intro hl h1 h2 h3
      rcases Option.ne_none_iff_exists'.mp hl with ⟨lv, hlv⟩
      rcases hid : jsGet qo "id" with _ | v0 <;>
        rcases hqy : jsGet qo "query" with _ | v1 <;>
          rcases hp : jsGet qo "page" with _ | w <;>
            simp [buildRequest, hid, hqy, hlv, h1, h2, h3, hp]
    · intro h1
      rcases Option.ne_none_iff_exists'.mp h1 with ⟨rv, hrv⟩
      rcases hid : jsGet qo "id" with _ | v0 <;>
        rcases hqy : jsGet qo "query" with _ | v1 <;>
          rcases hp : jsGet qo "page" with _ | w <;>
            rcases hl : jsGet qo "langid" with _ | lv0 <;>
              simp [buildRequest, hid, hqy, hp, hl, hrv]
    · intro h2 h1
      rcases Option.ne_none_iff_exists'.mp h2 with ⟨rv, hrv⟩
      rcases hid : jsGet qo "id" with _ | v0 <;>
        rcases hqy : jsGet qo "query" with _ | v1 <;>
          rcases hp : jsGet qo "page" with _ | w <;>
            rcases hl : jsGet qo "langid" with _ | lv0 <;>
              simp [buildRequest, hid, hqy, hp, hl, h1, hrv]
    · intro h3 h1 h2
      rcases Option.ne_none_iff_exists'.mp h3 with ⟨rv, hrv⟩
      rcases hid : jsGet qo "id" with _ | v0 <;>
        rcases hqy : jsGet qo "query" with _ | v1 <;>
          rcases hp : jsGet qo "page" with _ | w <;>
            rcases hl : jsGet qo "langid" with _ | lv0 <;>
              simp [buildRequest, hid, hqy, hp, hl, h1, h2, hrv]

theorem C5_parse_precedence_witness :
    (buildRequest [("id", JSPrim.str "5")]).operation = some "view" ∧
    (buildRequest [("id", JSPrim.str "5")]).id = some (jsParseInt (JSPrim.str "5")) := by
  have hq : parseQueryL (stripHash "id=5".data) = some [("id", JSPrim.str "5")] := by
    show parseQueryL ['i', 'd', '=', '5'] = some [("id", JSPrim.str "5")]
    rw [parseQueryL, splitOnChar_no_sep '&' _ (by decide)]
    exact foldlM_single _ _ _ _
      (parseSegment_pair [] ['i', 'd'] ['5'] ['5'] (by decide) (by decide) (by decide)
        (decode_no_pct _ (by decide)) (decode_no_pct _ (by decide)))
  have hparse : parseHash "id=5" = some (buildRequest [("id", JSPrim.str "5")]) := by
    rw [parseHash, if_neg (by decide)]
    rw [show stripHash "id=5".data = ['i', 'd', '=', '5'] from rfl] at hq
    rw [show stripHash "id=5".data = ['i', 'd', '=', '5'] from rfl, hq]
    rfl
  exact (C5_parse_precedence.2 "id=5" [("id", JSPrim.str "5")] _
    (by decide) (by decide) hq hparse).1 (JSPrim.str "5") rfl rfl rfl rfl rfl rfl

/-- C6 counterexample: an inbound message whose `data.error` is strictly
`true` and whose command tag matches a pending entry does settle that
pending request in the correlator — the entry is removed from the queue and
its future is resolved with the error-bearing message — contradicting the
claim that no pending request tied to that command is settled and that the
triggering request remains pending. -/
theorem C6_error_counterexample :
    dataError (AppMessage.mk "view"
      (.obj [("error", .bool true), ("message", .str "boom")])).data = true ∧
    onMessage [⟨"view", 7⟩]
      ⟨"view", .obj [("error", .bool true), ("message", .str "boom")]⟩ =
      ([], some (7, ⟨"view", .obj [("error", .bool true), ("message", .str "boom")]⟩)) ∧
    (onMessage [⟨"view", 7⟩]
      ⟨"view", .obj [("error", .bool true), ("message", .str "boom")]⟩).2 ≠ none := by
  refine ⟨rfl, ?_, ?_⟩
  · rw [onMessage, findResolve, if_pos rfl]
  · rw [onMessage, findResolve, if_pos rfl]
    exact fun h => Option.noConfusion h

/-- C6 as amended: for every inbound message with `data.error` strictly
`true`, the v0.2.3 message processor surfaces it as a user-visible error
and dispatches no command handler regardless of the command field; the
request correlator, however, ignores the error flag, so such a message
still resolves the first pending entry whose command tag matches — the
triggering request is settled with the error-bearing message rather than
left pending. -/
theorem C6_error_handling :
    ∀ msg : AppMessage, dataError msg.data = true →
      (processMessage msg = .errorShown (msg.data.field "message") ∧
        ∀ h, processMessage msg ≠ .handled h) ∧
      (∀ (q : List Pending) (p : Pending) (rest : List Pending),
          findResolve q msg.command = some (p, rest) →
          onMessage q msg = (rest, some (p.pid, msg))) := by
  intro msg herr
  refine ⟨⟨?_, ?_⟩, ?_⟩
  · rw [processMessage, if_pos herr]
  · intro h
    rw [processMessage, if_pos herr]
    exact fun hh => ProcOutcome.noConfusion hh
  · intro q p rest hf
    rw [onMessage, hf]

theorem C6_error_handling_witness :
    processMessage ⟨"view", .obj [("error", .bool true), ("message", .str "boom")]⟩ =
      .errorShown (.str "boom") ∧
    onMessage [⟨"view", 7⟩]
      ⟨"view", .obj [("error", .bool true), ("message", .str "boom")]⟩ =
      ([], some (7, ⟨"view", .obj [("error", .bool true), ("message", .str "boom")]⟩)) := by
  have h := C6_error_handling
    ⟨"view", .obj [("error", .bool true), ("message", .str "boom")]⟩ rfl
  exact ⟨h.1.1, h.2 [⟨"view", 7⟩] ⟨"view", 7⟩ [] (by rw [findResolve, if_pos rfl])⟩

/-- C7: `sendRequest` fails fast when the connection is not up: no frame is
written and the effect is only a re-initialisation, which carries no request
payload (the request is not retransmitted later); only when `isUp()` holds
is the JSON-serialized request written to the wire. -/
theorem C7_send_gate :
    ∀ (s : WSState) (req : ReqObj),
      (isUp s = false → sendRequest s req = .reconnect) ∧
      (isUp s = true → sendRequest s req = .sent (jsonStringify req)) := by
  intro s req
  constructor
  · intro h
    rw [sendRequest, h, if_pos rfl]
  · intro h
    rw [sendRequest, h]
    simp

theorem C7_send_gate_witness :
    sendRequest ⟨false⟩ fetchMeta = .reconnect ∧
    sendRequest ⟨true⟩ fetchMeta = .sent (jsonStringify fetchMeta) :=
  ⟨(C7_send_gate ⟨false⟩ fetchMeta).1 rfl, (C7_send_gate ⟨true⟩ fetchMeta).2 rfl⟩

/-- C8: an inbound message whose command tag matches no pending entry is
dropped: the handler returns normally, resolves nothing, and leaves the
pending queue exactly as it was. -/
theorem C8_unmatched_drop :
    ∀ (q : List Pending) (m : AppMessage),
      (∀ p ∈ q, p.tag ≠ m.command) → onMessage q m = (q, none) := by
  intro q m h
  rw [onMessage, findResolve_none m.command q h]

theorem C8_unmatched_drop_witness :
    onMessage [⟨"meta", 3⟩, ⟨"search", 4⟩] ⟨"view", .null⟩ =
      ([⟨"meta", 3⟩, ⟨"search", 4⟩], none) :=
  C8_unmatched_drop [⟨"meta", 3⟩, ⟨"search", 4⟩] ⟨"view", .null⟩ (by decide)

/-- C9: an update response whose data is strictly the string `"success"`
notifies success and issues exactly one follow-up request, namely the
`meta` command (whose response handler overwrites the cached total record
count and tag vocabulary with the response fields, keeping only the search
total from the previous snapshot); an update response with any other data
value notifies failure and issues no request.  The strict-equality test
holds exactly on the string `"success"`. -/
theorem C9_meta_refresh :
    (∀ msg : AppMessage, isSuccess msg.data = true →
        commandUpdate msg = ⟨true, [fetchMeta]⟩ ∧
        (commandUpdate msg).requests.length = 1 ∧
        jsGet fetchMeta "command" = some (.str "meta")) ∧
    (∀ msg : AppMessage, isSuccess msg.data = false →
        commandUpdate msg = ⟨false, []⟩) ∧
    (∀ d : JData, isSuccess d = true ↔ d = .str "success") ∧
    (∀ (st : MetaStore) (m : AppMessage),
        (commandMeta st m).totalRecords = m.data.field "total" ∧
        (commandMeta st m).tagsAvailable = m.data.field "tags" ∧
        (commandMeta st m).totalSearch = st.totalSearch) := by
  refine ⟨?_, ?_, ?_, ?_⟩
  · intro msg h
    rw [commandUpdate, if_pos h]
    exact ⟨rfl, rfl, rfl⟩
  · intro msg h
    rw [commandUpdate, h]
    simp
  · intro d
    cases d <;> simp [isSuccess]
  · intro st m
    exact ⟨rfl, rfl, rfl⟩

theorem C9_meta_refresh_witness :
    commandUpdate ⟨"update", .str "success"⟩ = ⟨true, [fetchMeta]⟩ ∧
    commandUpdate ⟨"update", .str "failed"⟩ = ⟨false, []⟩ :=
  ⟨(C9_meta_refresh.1 ⟨"update", .str "success"⟩ rfl).1,
    C9_meta_refresh.2.1 ⟨"update", .str "failed"⟩ rfl⟩

/-- C10: `parseQuery` splits its input on `&` and folds the segments into a
query object in which a segment containing no `=` is mapped (under its raw
text) to `null`; a `name=value` segment whose parts percent-decode is
mapped from the decoded name to the decoded value, for every decodable
name, percent-encoded names included; a segment whose decoded name is
empty leaves the object untouched; and an assignment shadows any
earlier binding of the same name while leaving other names' lookups
unchanged. -/
theorem C10_parseQuery_shape :
    (∀ s : String, parseQuery s = (splitOnChar '&' s.data).foldlM parseSegment []) ∧
    (∀ (obj : QueryObj) (seg : List Char), '=' ∉ seg →
        parseSegment obj seg = some (jsAssign obj ⟨seg⟩ .null)) ∧
    (∀ (obj : QueryObj) (nm dnm val dval : List Char),
        dnm ≠ [] → '=' ∉ nm → '=' ∉ val →
        decodeURIComponentL nm = some dnm → decodeURIComponentL val = some dval →
        parseSegment obj (nm ++ '=' :: val) = some (jsAssign obj ⟨dnm⟩ (.str ⟨dval⟩))) ∧
    (∀ (obj : QueryObj) (nm val dval : List Char), '=' ∉ nm → '=' ∉ val →
        decodeURIComponentL nm = some [] → decodeURIComponentL val = some dval →
        parseSegment obj (nm ++ '=' :: val) = some obj) ∧
    (∀ (obj : QueryObj) (k : String) (v : JSPrim),
        jsGet (jsAssign obj k v) k = some v) ∧
    (∀ (obj : QueryObj) (k k2 : String) (v : JSPrim), k2 ≠ k →
        jsGet (jsAssign obj k v) k2 = jsGet obj k2) := by
  refine ⟨?_, ?_, ?_, ?_, ?_, ?_⟩
  · intro s
    rfl
  · intro obj seg h
    rw [parseSegment, if_pos h]
  · intro obj nm dnm val dval h1 h2 h3 h4 h5
    exact parseSegment_decoded obj nm dnm val dval h1 h2 h3 h4 h5
  · intro obj nm val dval hnm hval hnmdec hdec
    exact parseSegment_skip obj nm val dval hnm hval hnmdec hdec
  · intro obj k v
    rw [jsAssign, jsGet, if_pos rfl]
  · intro obj k k2 v h
    rw [jsAssign, jsGet, if_neg h]

theorem C10_parseQuery_shape_witness :
    parseSegment [] "retrain".data = some [("retrain", JSPrim.null)] ∧
    parseSegment [] ("%61".data ++ '=' :: "b".data) = some [("a", JSPrim.str "b")] ∧
    parseSegment [("x", JSPrim.null)] ('=' :: "cd".data) = some [("x", JSPrim.null)] ∧
    jsGet (jsAssign [("a", JSPrim.str "1")] "a" (JSPrim.str "2")) "a" =
      some (JSPrim.str "2") := by
  have h0 : lexPct [] = some [] := by simp [lexPct]
  have h1 : utf8DecodeToks [] = some [] := by simp [utf8DecodeToks]
  have hdec : decodeURIComponentL ['%', '6', '1'] = some ['a'] := by
    have h2 : lexPct ['%', '6', '1'] = some [PctTok.byte 97] := by
      have h3 := lexPct_pctTriple 97 (by omega) []
      rw [h0] at h3
      exact h3
    have h4 : utf8DecodeToks [PctTok.byte 97] = some ['a'] := by
      have h5 := utf8DecodeToks_bytes 'a' []
      rw [h1] at h5
      exact h5
    rw [decodeURIComponentL, h2]
    exact h4
  refine ⟨?_, ?_, ?_, ?_⟩
  · exact C10_parseQuery_shape.2.1 [] "retrain".data (by decide)
  · exact C10_parseQuery_shape.2.2.1 [] ['%', '6', '1'] ['a'] ['b'] ['b'] (by decide)
      (by decide) (by decide) hdec (decode_no_pct _ (by decide))
  · exact C10_parseQuery_shape.2.2.2.1 [("x", JSPrim.null)] [] "cd".data "cd".data
      (by decide) (by decide) (decode_no_pct _ (by decide)) (decode_no_pct _ (by decide))
  · exact C10_parseQuery_shape.2.2.2.2.1 [("a", JSPrim.str "1")] "a" (JSPrim.str "2")

end OCE
